import Mathlib

/-!
Shallow embedding of the DBAP (Distance-Based Amplitude Panning) library
(src/src/lib.rs) over the real numbers.  The Rust source is generic over a
numeric `Scalar` type (with `f32` as default); we instantiate the scalar at
`ℝ`, with the Rust float `pow` modelled by `Real.rpow`.
-/

namespace Dbap

/-- Models `Speaker<S>` from src/src/lib.rs: a distance from the virtual
source and a relative weight. -/
structure Speaker where
  distance : ℝ
  weight : ℝ

/-- Models `a_coefficient`: `S::from(10f32).pow(-rolloff_db / S::from(20.0))`. -/
noncomputable def a_coefficient (rolloff_db : ℝ) : ℝ :=
  (10 : ℝ) ^ (-rolloff_db / 20)

/-- Models `v_speaker_relative_amplitude`:
`k * speaker.weight / ((speaker.distance + speaker.distance) * a)`. -/
noncomputable def v_speaker_relative_amplitude (speaker : Speaker) (k a : ℝ) : ℝ :=
  k * speaker.weight / ((speaker.distance + speaker.distance) * a)

/-- Models `k_coefficient`: sums, over the speakers, `0` when the distance is
exactly zero and `weight*weight / (distance*distance)` otherwise; returns `0`
when the sum is zero and `2 * a / sum` otherwise. -/
noncomputable def k_coefficient (a : ℝ) (speakers : List Speaker) : ℝ :=
  let zero : ℝ := 0
  let sum : ℝ := (speakers.map (fun s =>
    if s.distance = zero then zero
    else
      let w2 := s.weight * s.weight
      let d2 := s.distance * s.distance
      w2 / d2)).sum
  if sum = zero then zero else 2 * a / sum

/-- Models `blurred_distance_2` on 2D points `[S; 2]` (here pairs):
`x * x + y * y + blur * blur` for the componentwise differences. -/
noncomputable def blurred_distance_2 (source speaker : ℝ × ℝ) (blur : ℝ) : ℝ :=
  let x := speaker.1 - source.1
  let y := speaker.2 - source.2
  x * x + y * y + blur * blur

/-- Models the `SpeakerGains<'a, S>` iterator state: the borrowed speaker
slice, the two precomputed coefficients and the cursor `i`. -/
structure SpeakerGains where
  speakers : List Speaker
  a_coefficient : ℝ
  k_coefficient : ℝ
  i : ℕ

/-- The failure condition of `SpeakerGains::new`: the
`assert!(speakers.len() > 0)` panic on an empty speaker list, surfaced here
as an error value. -/
inductive Error where
  | emptyInput
deriving DecidableEq

/-- Models `SpeakerGains::new`: asserts the speaker list is non-empty (the
panic is embedded as `Except.error Error.emptyInput`), then computes the two
coefficients once and stores them with cursor `0`. -/
noncomputable def SpeakerGains.new (speakers : List Speaker) (rolloff_db : ℝ) :
    Except Error SpeakerGains :=
  if speakers.length > 0 then
    let a := Dbap.a_coefficient rolloff_db
    let k := Dbap.k_coefficient a speakers
    Except.ok { speakers := speakers, a_coefficient := a, k_coefficient := k, i := 0 }
  else
    Except.error Error.emptyInput

/-- Models `<SpeakerGains as Iterator>::next`: `None` once the cursor reaches
the end; otherwise yields `v_speaker_relative_amplitude(s, k, a) / s.distance`
for the speaker under the cursor and advances the cursor. -/
noncomputable def SpeakerGains.next (g : SpeakerGains) : Option (ℝ × SpeakerGains) :=
  if h : g.i < g.speakers.length then
    let s := g.speakers[g.i]
    some (v_speaker_relative_amplitude s g.k_coefficient g.a_coefficient / s.distance,
      { g with i := g.i + 1 })
  else
    none

/-- Draining the iterator: the list of all values `next` yields until it
returns `none` (how a Rust caller collects the gains). -/
noncomputable def SpeakerGains.drain (g : SpeakerGains) : List ℝ :=
  match h : g.next with
  | none => []
  | some (x, g2) => x :: g2.drain
termination_by g.speakers.length - g.i
decreasing_by
  simp only [SpeakerGains.next] at h
  split at h
  · simp only [Option.some.injEq, Prod.mk.injEq] at h
    obtain ⟨-, rfl⟩ := h
    simp only
    omega
  · exact absurd h (by simp)

/-- The gain produced for one speaker by an iterator carrying coefficients
`k` and `a`. -/
noncomputable def gain (k a : ℝ) (s : Speaker) : ℝ :=
  v_speaker_relative_amplitude s k a / s.distance

theorem next_eq_none (g : SpeakerGains) (h : ¬ g.i < g.speakers.length) :
    g.next = none := by
  simp [SpeakerGains.next, h]

theorem next_eq_some (g : SpeakerGains) (h : g.i < g.speakers.length) :
    g.next = some (gain g.k_coefficient g.a_coefficient g.speakers[g.i],
      { g with i := g.i + 1 }) := by
  simp [SpeakerGains.next, h, gain]

/-- Draining produces exactly the per-speaker gains of the suffix of the
speaker list starting at the cursor, in order. -/
theorem drain_eq (g : SpeakerGains) :
    g.drain = (g.speakers.drop g.i).map (gain g.k_coefficient g.a_coefficient) := by
  induction g using SpeakerGains.drain.induct with
  | case1 g h =>
    rw [SpeakerGains.drain]
    rw [h]
    have hge : ¬ g.i < g.speakers.length := by
      intro hlt
      rw [next_eq_some g hlt] at h
      exact Option.noConfusion h
    rw [List.drop_eq_nil_of_le (Nat.le_of_not_lt hge), List.map_nil]
  | case2 g x g2 h ih =>
    rw [SpeakerGains.drain]
    rw [h]
    have hlt : g.i < g.speakers.length := by
      by_contra hge
      rw [next_eq_none g hge] at h
      exact Option.noConfusion h
    rw [next_eq_some g hlt] at h
    simp only [Option.some.injEq, Prod.mk.injEq] at h
    obtain ⟨rfl, rfl⟩ := h
    rw [List.drop_eq_getElem_cons hlt, List.map_cons]
    simp only at ih ⊢
    rw [ih]

/-- Inverting `SpeakerGains.new` on success: the resulting state stores the
input speakers, the two coefficients computed from them, and cursor `0`. -/
theorem new_ok (speakers : List Speaker) (rolloff_db : ℝ) (g : SpeakerGains)
    (hg : SpeakerGains.new speakers rolloff_db = Except.ok g) :
    g = ⟨speakers, a_coefficient rolloff_db,
      k_coefficient (a_coefficient rolloff_db) speakers, 0⟩ := by
  rw [SpeakerGains.new] at hg
  split at hg
  · cases hg
    rfl
  · exact absurd hg (by simp)

/-- A successful `next` step advances only the cursor; the coefficients and
the speaker list are untouched. -/
theorem next_some_fields (g1 : SpeakerGains) (x : ℝ) (g2 : SpeakerGains)
    (h : g1.next = some (x, g2)) :
    g2.a_coefficient = g1.a_coefficient ∧ g2.k_coefficient = g1.k_coefficient ∧
      g2.speakers = g1.speakers ∧ g2.i = g1.i + 1 := by
  rw [SpeakerGains.next] at h
  split at h
  · simp only [Option.some.injEq, Prod.mk.injEq] at h
    obtain ⟨-, rfl⟩ := h
    exact ⟨rfl, rfl, rfl, rfl⟩
  · exact absurd h (by simp)

/-- The spec's description of the k coefficient, written with the spec's
wording: sum over speakers of (0 if the distance is exactly zero, else
weight squared over distance squared); 0 if the sum is exactly zero, else
2 times a divided by the sum. -/
noncomputable def k_coefficient_described (a : ℝ) (speakers : List Speaker) : ℝ :=
  let total : ℝ := (speakers.map (fun s =>
    if s.distance = 0 then 0 else s.weight ^ 2 / s.distance ^ 2)).sum
  if total = 0 then 0 else 2 * a / total

/-- C2: for every scalar a and speaker list, `k_coefficient` computes exactly
the spec's formula: the sum over speakers of (0 when the distance is zero,
else weight squared over distance squared), then 0 when the sum is zero, else
2 times a over the sum. -/
theorem k_coefficient_matches_description (a : ℝ) (speakers : List Speaker) :
    k_coefficient a speakers = k_coefficient_described a speakers := by
  simp only [k_coefficient, k_coefficient_described, pow_two]

/-- C10: on the empty speaker list, `k_coefficient` does not fail (despite
its documentation claiming it panics with no speakers): the empty sum is
zero, so it returns exactly zero. -/
theorem k_coefficient_nil (a : ℝ) : k_coefficient a [] = 0 := by
  simp [k_coefficient]

/-- C8: when every speaker has weight exactly zero or distance exactly zero,
`k_coefficient` returns exactly zero. -/
theorem k_coefficient_all_degenerate (a : ℝ) (speakers : List Speaker)
    (h : ∀ s ∈ speakers, s.weight = 0 ∨ s.distance = 0) :
    k_coefficient a speakers = 0 := by
  simp only [k_coefficient]
  have hsum : (speakers.map (fun s =>
      if s.distance = 0 then (0:ℝ)
      else s.weight * s.weight / (s.distance * s.distance))).sum = 0 := by
    apply List.sum_eq_zero
    intro x hx
    simp only [List.mem_map] at hx
    obtain ⟨s, hs, rfl⟩ := hx
    rcases h s hs with hw | hd
    · by_cases hd0 : s.distance = 0
      · simp [hd0]
      · simp [hd0, hw]
    · simp [hd]
  rw [hsum, if_pos rfl]

/-- Witness for C8: a single speaker at distance zero with weight five gives
a zero k coefficient. -/
theorem k_coefficient_all_degenerate_witness :
    (∀ s ∈ [Speaker.mk 0 5], s.weight = 0 ∨ s.distance = 0) ∧
      k_coefficient 1 [Speaker.mk 0 5] = 0 :=
  ⟨fun s hs => by rw [List.mem_singleton] at hs; subst hs; exact Or.inr rfl,
   k_coefficient_all_degenerate 1 [Speaker.mk 0 5]
     (fun s hs => by rw [List.mem_singleton] at hs; subst hs; exact Or.inr rfl)⟩

/-- C4: the relative amplitude is k times weight over (2 times distance
times a); the source's `(distance + distance) * a` denominator equals the
spec's `2 * distance * a`. -/
theorem v_speaker_relative_amplitude_closed_form (s : Speaker) (k a : ℝ) :
    v_speaker_relative_amplitude s k a = k * s.weight / (2 * s.distance * a) := by
  rw [v_speaker_relative_amplitude,
    show (s.distance + s.distance) * a = 2 * s.distance * a by ring]

/-- C7: blurred squared distance of a point to itself is 0 at blur 0 and
blur squared at any blur, and is strictly positive at any nonzero blur, for
any source and speaker positions. -/
theorem blurred_distance_2_props :
    (∀ p : ℝ × ℝ, blurred_distance_2 p p 0 = 0) ∧
      (∀ (p : ℝ × ℝ) (blur : ℝ), blurred_distance_2 p p blur = blur ^ 2) ∧
      (∀ (source speaker : ℝ × ℝ) (blur : ℝ), blur ≠ 0 →
        0 < blurred_distance_2 source speaker blur) := by
  refine ⟨fun p => ?_, fun p blur => ?_, fun source speaker blur hb => ?_⟩
  · simp [blurred_distance_2]
  · simp only [blurred_distance_2, sub_self, mul_zero, zero_mul, zero_add]
    ring
  · have h1 : 0 < blur * blur := mul_self_pos.mpr hb
    have h2 : 0 ≤ (speaker.1 - source.1) * (speaker.1 - source.1) :=
      mul_self_nonneg _
    have h3 : 0 ≤ (speaker.2 - source.2) * (speaker.2 - source.2) :=
      mul_self_nonneg _
    simp only [blurred_distance_2]
    linarith

/-- Witness for C7: at source and speaker both at the origin with blur 1,
the blurred squared distance is strictly positive. -/
theorem blurred_distance_2_props_witness :
    ((1:ℝ) ≠ 0) ∧ 0 < blurred_distance_2 (0, 0) (0, 0) 1 :=
  ⟨one_ne_zero, blurred_distance_2_props.2.2 (0, 0) (0, 0) 1 one_ne_zero⟩

/-- C3: constructing the gain iterator with an empty speaker list always
fails with the empty-input condition (the source's assertion), never
silently yielding a state; with any non-empty list it succeeds. -/
theorem new_rejects_empty (rolloff_db : ℝ) (speakers : List Speaker) :
    SpeakerGains.new [] rolloff_db = Except.error Error.emptyInput ∧
      (speakers ≠ [] → ∃ g, SpeakerGains.new speakers rolloff_db = Except.ok g) := by
  constructor
  · rw [SpeakerGains.new]
    simp
  · intro h
    refine ⟨⟨speakers, a_coefficient rolloff_db,
      k_coefficient (a_coefficient rolloff_db) speakers, 0⟩, ?_⟩
    rw [SpeakerGains.new, if_pos (List.length_pos.mpr h)]

/-- Witness for C3: the singleton list of one speaker at distance one is
non-empty; construction fails on the empty list and succeeds on it. -/
theorem new_rejects_empty_witness :
    ([Speaker.mk 1 1] ≠ ([] : List Speaker)) ∧
      SpeakerGains.new [] 0 = Except.error Error.emptyInput ∧
      ∃ g, SpeakerGains.new [Speaker.mk 1 1] 0 = Except.ok g :=
  ⟨by simp, (new_rejects_empty 0 [Speaker.mk 1 1]).1,
    (new_rejects_empty 0 [Speaker.mk 1 1]).2 (by simp)⟩

/-- C9: on success, the constructor stores `a_coefficient rolloff_db`, the
k coefficient computed from it and the speakers, the speaker list itself and
cursor 0; and every successful `next` step leaves the stored coefficients
and speaker list unchanged, only incrementing the cursor. -/
theorem coefficients_fixed (speakers : List Speaker) (rolloff_db : ℝ)
    (g : SpeakerGains) (hg : SpeakerGains.new speakers rolloff_db = Except.ok g) :
    g.a_coefficient = a_coefficient rolloff_db ∧
      g.k_coefficient = k_coefficient (a_coefficient rolloff_db) speakers ∧
      g.speakers = speakers ∧ g.i = 0 ∧
      ∀ (g1 : SpeakerGains) (x : ℝ) (g2 : SpeakerGains), g1.next = some (x, g2) →
        g2.a_coefficient = g1.a_coefficient ∧ g2.k_coefficient = g1.k_coefficient ∧
          g2.speakers = g1.speakers ∧ g2.i = g1.i + 1 := by
  obtain rfl := new_ok speakers rolloff_db g hg
  exact ⟨rfl, rfl, rfl, rfl, next_some_fields⟩

/-- Witness for C9: the fields of the iterator constructed from one speaker
at distance one, rolloff zero. -/
theorem coefficients_fixed_witness :
    SpeakerGains.new [Speaker.mk 1 1] 0 = Except.ok
      (⟨[Speaker.mk 1 1], a_coefficient 0,
        k_coefficient (a_coefficient 0) [Speaker.mk 1 1], 0⟩ : SpeakerGains) ∧
      ((⟨[Speaker.mk 1 1], a_coefficient 0,
        k_coefficient (a_coefficient 0) [Speaker.mk 1 1], 0⟩ : SpeakerGains).a_coefficient
        = a_coefficient 0) :=
  ⟨rfl, (coefficients_fixed [Speaker.mk 1 1] 0 _ rfl).1⟩

/-- C1: for every non-empty speaker list and rolloff, a successfully
constructed iterator drains to exactly one gain per speaker, in input order,
the gain at position i being the relative amplitude of speaker i (with the
stored k and a coefficients) divided by speaker i's distance. -/
theorem speaker_gains_yield (speakers : List Speaker) (rolloff_db : ℝ)
    (g : SpeakerGains) (hne : speakers ≠ [])
    (hg : SpeakerGains.new speakers rolloff_db = Except.ok g) :
    g.drain.length = speakers.length ∧
      g.drain = speakers.map (fun s =>
        v_speaker_relative_amplitude s
          (k_coefficient (a_coefficient rolloff_db) speakers)
          (a_coefficient rolloff_db) / s.distance) := by
  obtain rfl := new_ok speakers rolloff_db g hg
  have hd := drain_eq ⟨speakers, a_coefficient rolloff_db,
    k_coefficient (a_coefficient rolloff_db) speakers, 0⟩
  simp only [List.drop_zero] at hd
  constructor
  · rw [hd, List.length_map]
  · rw [hd]
    rfl

/-- Witness for C1: the iterator over one speaker at distance one with
rolloff zero drains to exactly the one mapped gain. -/
theorem speaker_gains_yield_witness :
    ([Speaker.mk 1 1] ≠ ([] : List Speaker)) ∧
      (SpeakerGains.drain ⟨[Speaker.mk 1 1], a_coefficient 0,
        k_coefficient (a_coefficient 0) [Speaker.mk 1 1], 0⟩).length
        = [Speaker.mk 1 1].length ∧
      SpeakerGains.drain ⟨[Speaker.mk 1 1], a_coefficient 0,
        k_coefficient (a_coefficient 0) [Speaker.mk 1 1], 0⟩
        = [Speaker.mk 1 1].map (fun s =>
            v_speaker_relative_amplitude s
              (k_coefficient (a_coefficient 0) [Speaker.mk 1 1])
              (a_coefficient 0) / s.distance) :=
  ⟨by simp, (speaker_gains_yield [Speaker.mk 1 1] 0 _ (by simp) rfl).1,
    (speaker_gains_yield [Speaker.mk 1 1] 0 _ (by simp) rfl).2⟩

/-- Every summand of the k coefficient's sum is nonnegative. -/
theorem k_summand_nonneg (s : Speaker) :
    0 ≤ if s.distance = 0 then (0:ℝ)
      else s.weight * s.weight / (s.distance * s.distance) := by
  by_cases h : s.distance = 0
  · simp [h]
  · rw [if_neg h]
    exact div_nonneg (mul_self_nonneg _) (mul_self_nonneg _)

/-- With a positive a coefficient and some member speaker of nonzero weight
and nonzero distance, the k coefficient is strictly positive. -/
theorem k_coefficient_pos (a : ℝ) (ha : 0 < a) (speakers : List Speaker)
    (s : Speaker) (hs : s ∈ speakers) (hw : s.weight ≠ 0) (hd : s.distance ≠ 0) :
    0 < k_coefficient a speakers := by
  simp only [k_coefficient]
  set f : Speaker → ℝ := fun t => if t.distance = 0 then (0:ℝ)
    else t.weight * t.weight / (t.distance * t.distance) with hf
  have hterm : 0 < f s := by
    rw [hf]
    simp only
    rw [if_neg hd]
    exact div_pos (mul_self_pos.mpr hw) (mul_self_pos.mpr hd)
  have hle : f s ≤ (speakers.map f).sum := by
    apply List.single_le_sum
    · intro x hx
      simp only [List.mem_map] at hx
      obtain ⟨t, ht, rfl⟩ := hx
      exact k_summand_nonneg t
    · exact List.mem_map_of_mem f hs
  have hpos : 0 < (speakers.map f).sum := lt_of_lt_of_le hterm hle
  rw [if_neg (ne_of_gt hpos)]
  exact div_pos (mul_pos two_pos ha) hpos

/-- Closed form of the per-speaker gain: relative amplitude over distance is
k times weight over (2 times a times distance squared). -/
theorem gain_closed_form (k a : ℝ) (s : Speaker) :
    gain k a s = k * s.weight / (2 * a * s.distance ^ 2) := by
  rw [gain, v_speaker_relative_amplitude,
    show (s.distance + s.distance) * a = 2 * s.distance * a by ring, div_div,
    show 2 * s.distance * a * s.distance = 2 * a * s.distance ^ 2 by ring]

/-- C6 (amended): for two speakers in the list with identical strictly
positive weight and distinct strictly positive distances d1 < d2, with the
rest of the list and the rolloff held fixed, the drained gain at the closer
speaker's position strictly exceeds the one at the farther speaker's
position. -/
theorem gains_decrease_with_distance (speakers : List Speaker) (rolloff_db : ℝ)
    (g : SpeakerGains) (hg : SpeakerGains.new speakers rolloff_db = Except.ok g)
    (i j : ℕ) (hi : i < speakers.length) (hj : j < speakers.length)
    (d1 d2 w : ℝ) (hsi : speakers[i] = Speaker.mk d1 w)
    (hsj : speakers[j] = Speaker.mk d2 w)
    (hw : 0 < w) (hd1 : 0 < d1) (h12 : d1 < d2) :
    (SpeakerGains.drain g).getD j 0 < (SpeakerGains.drain g).getD i 0 := by
  obtain rfl := new_ok speakers rolloff_db g hg
  have ha : 0 < a_coefficient rolloff_db := Real.rpow_pos_of_pos (by norm_num) _
  have hd2 : 0 < d2 := lt_trans hd1 h12
  have hmem : Speaker.mk d1 w ∈ speakers := hsi ▸ List.getElem_mem hi
  have hk : 0 < k_coefficient (a_coefficient rolloff_db) speakers :=
    k_coefficient_pos _ ha speakers (Speaker.mk d1 w) hmem
      (ne_of_gt hw) (ne_of_gt hd1)
  have hdr := drain_eq ⟨speakers, a_coefficient rolloff_db,
    k_coefficient (a_coefficient rolloff_db) speakers, 0⟩
  simp only [List.drop_zero] at hdr
  rw [hdr]
  have hi2 : i < (speakers.map (gain
      (k_coefficient (a_coefficient rolloff_db) speakers)
      (a_coefficient rolloff_db))).length := by
    rw [List.length_map]; exact hi
  have hj2 : j < (speakers.map (gain
      (k_coefficient (a_coefficient rolloff_db) speakers)
      (a_coefficient rolloff_db))).length := by
    rw [List.length_map]; exact hj
  rw [List.getD_eq_getElem?_getD, List.getD_eq_getElem?_getD,
    List.getElem?_eq_getElem hi2, List.getElem?_eq_getElem hj2]
  simp only [Option.getD_some, List.getElem_map, hsi, hsj]
  rw [gain_closed_form, gain_closed_form]
  simp only
  apply div_lt_div_of_pos_left (mul_pos hk hw)
  · exact mul_pos (mul_pos two_pos ha) (pow_pos hd1 2)
  · exact mul_lt_mul_of_pos_left (pow_lt_pow_left₀ h12 hd1.le two_ne_zero)
      (mul_pos two_pos ha)

/-- Witness for C6 (amended): with two speakers of weight one at distances
one and two and rolloff zero, the gain at position zero strictly exceeds the
gain at position one. -/
theorem gains_decrease_with_distance_witness :
    ((0:ℝ) < 1) ∧ ((1:ℝ) < 2) ∧
      (SpeakerGains.drain ⟨[Speaker.mk 1 1, Speaker.mk 2 1], a_coefficient 0,
        k_coefficient (a_coefficient 0) [Speaker.mk 1 1, Speaker.mk 2 1], 0⟩).getD 1 0 <
      (SpeakerGains.drain ⟨[Speaker.mk 1 1, Speaker.mk 2 1], a_coefficient 0,
        k_coefficient (a_coefficient 0) [Speaker.mk 1 1, Speaker.mk 2 1], 0⟩).getD 0 0 :=
  ⟨one_pos, one_lt_two,
    gains_decrease_with_distance [Speaker.mk 1 1, Speaker.mk 2 1] 0 _ rfl
      0 1 (by simp) (by simp) 1 2 1 rfl rfl one_pos one_pos one_lt_two⟩

/-- Counterexample to C6 as stated: two speakers of identical weight zero at
distinct positive distances one and two (rolloff zero) both receive gain
zero, so the closer speaker's gain is not strictly greater. -/
theorem gains_decrease_with_distance_cex :
    SpeakerGains.new [Speaker.mk 1 0, Speaker.mk 2 0] 0 = Except.ok
      (⟨[Speaker.mk 1 0, Speaker.mk 2 0], a_coefficient 0,
        k_coefficient (a_coefficient 0) [Speaker.mk 1 0, Speaker.mk 2 0], 0⟩ :
          SpeakerGains) ∧
      ((0:ℝ) < 1) ∧ ((1:ℝ) < 2) ∧
      ¬ ((SpeakerGains.drain ⟨[Speaker.mk 1 0, Speaker.mk 2 0], a_coefficient 0,
          k_coefficient (a_coefficient 0) [Speaker.mk 1 0, Speaker.mk 2 0], 0⟩).getD 1 0 <
        (SpeakerGains.drain ⟨[Speaker.mk 1 0, Speaker.mk 2 0], a_coefficient 0,
          k_coefficient (a_coefficient 0) [Speaker.mk 1 0, Speaker.mk 2 0], 0⟩).getD 0 0) := by
  refine ⟨rfl, one_pos, one_lt_two, ?_⟩
  have hdr := drain_eq ⟨[Speaker.mk 1 0, Speaker.mk 2 0], a_coefficient 0,
    k_coefficient (a_coefficient 0) [Speaker.mk 1 0, Speaker.mk 2 0], 0⟩
  simp only [List.drop_zero] at hdr
  rw [hdr]
  have hk : k_coefficient (a_coefficient 0) [Speaker.mk 1 0, Speaker.mk 2 0] = 0 := by
    norm_num [k_coefficient]
  simp [gain, v_speaker_relative_amplitude, hk]

/-- The tenth power of 10 to the 3/10 is 1000. -/
theorem ten_rpow_three_tenths_pow_ten : ((10:ℝ) ^ ((3:ℝ)/10)) ^ (10:ℕ) = 1000 := by
  rw [← Real.rpow_natCast ((10:ℝ) ^ ((3:ℝ)/10)) 10,
    ← Real.rpow_mul (by norm_num : (0:ℝ) ≤ 10)]
  rw [show (3:ℝ)/10 * ((10:ℕ):ℝ) = ((3:ℕ):ℝ) by norm_num, Real.rpow_natCast]
  norm_num

/-- C5: the a coefficient is 10 to the power of minus the rolloff over 20
for every (finite, here real) input, and at rolloff 6 it is within 1/100000
of 0.501187. -/
theorem a_coefficient_formula_and_value :
    (∀ rolloff_db : ℝ, a_coefficient rolloff_db = (10:ℝ) ^ (-rolloff_db / 20)) ∧
      |a_coefficient 6 - 0.501187| < 1 / 100000 := by
  refine ⟨fun r => rfl, ?_⟩
  have hx : a_coefficient 6 = ((10:ℝ) ^ ((3:ℝ)/10))⁻¹ := by
    rw [a_coefficient, show (-(6:ℝ) / 20) = -((3:ℝ)/10) by norm_num,
      Real.rpow_neg (by norm_num : (0:ℝ) ≤ 10)]
  set y : ℝ := (10:ℝ) ^ ((3:ℝ)/10) with hy_def
  have hy : 0 < y := Real.rpow_pos_of_pos (by norm_num) _
  have hlow : (0.501177:ℝ) < y⁻¹ := by
    have hc : y < (0.501177:ℝ)⁻¹ := by
      apply lt_of_pow_lt_pow_left₀ 10 (by norm_num : (0:ℝ) ≤ (0.501177:ℝ)⁻¹)
      rw [ten_rpow_three_tenths_pow_ten]
      norm_num
    have h2 := inv_strictAnti₀ hy hc
    rwa [inv_inv] at h2
  have hupp : y⁻¹ < 0.501197 := by
    have hc : (0.501197:ℝ)⁻¹ < y := by
      apply lt_of_pow_lt_pow_left₀ 10 (le_of_lt hy)
      rw [ten_rpow_three_tenths_pow_ten]
      norm_num
    have h2 := inv_strictAnti₀ (by norm_num : (0:ℝ) < (0.501197:ℝ)⁻¹) hc
    rwa [inv_inv] at h2
  rw [hx, abs_sub_lt_iff]
  constructor
  · linarith
  · linarith

end Dbap
